import Mathlib

/-! # Verification of the embive RV32I interpreter fragments

Shallow embedding of the register file (src/register.rs), the AUIPC
instruction (src/instruction/auipc.rs) and the syscall result convention
documented by the crate-level example (src/lib.rs), together with proofs
of the specified properties.
-/

namespace Embive

/-- Modelled from the spec: src/error.rs is absent from the sources; the spec
(section 7) gives the closed error taxonomy reproduced here. Only
InvalidRegister is raised by the code under verification. -/
inductive EmbiveError where
  | InvalidInstruction
  | InvalidRegister
  | InvalidMemory
  | NoSyscallFunction
  | InstructionLimitReached
deriving DecidableEq

/-- Number of registers available (src/register.rs, REGISTER_COUNT). -/
def REGISTER_COUNT : Nat := 32

/-- CPU Registers (src/register.rs): an array of 32 signed 32-bit values,
modelled as a total function from valid indices to integers. -/
structure Registers where
  inner : Fin REGISTER_COUNT → Int

/-- Registers::new (src/register.rs): all registers are set to 0. -/
def Registers.new : Registers :=
  ⟨fun _ => 0⟩

/-- Registers::reset (src/register.rs): all registers are set to 0. -/
def Registers.reset (_r : Registers) : Registers :=
  ⟨fun _ => 0⟩

/-- Registers::get (src/register.rs): bounds-checked read; an index at or
above REGISTER_COUNT is an InvalidRegister error. -/
def Registers.get (r : Registers) (index : Nat) : Except EmbiveError Int :=
  if h : REGISTER_COUNT ≤ index then
    .error .InvalidRegister
  else
    .ok (r.inner ⟨index, Nat.lt_of_not_le h⟩)

/-- Registers::get_mut (src/register.rs): bounds-checked access to a register
slot. The mutable reference is modelled by returning the current slot value;
a store through the reference is modelled as Registers.write below. -/
def Registers.get_mut (r : Registers) (index : Nat) : Except EmbiveError Int :=
  if h : REGISTER_COUNT ≤ index then
    .error .InvalidRegister
  else
    .ok (r.inner ⟨index, Nat.lt_of_not_le h⟩)

/-- A store through a mutable slot reference obtained from get_mut: replace
the value at the given index, leaving every other slot untouched. -/
def Registers.write (r : Registers) (index : Nat) (value : Int) : Registers :=
  ⟨fun i => if (i : Nat) = index then value else r.inner i⟩

/-- CPU Register Enum (src/register.rs), in declaration order. -/
inductive Register where
  | Zero
  | RA
  | SP
  | GP
  | TP
  | T0
  | T1
  | T2
  | S0
  | S1
  | A0
  | A1
  | A2
  | A3
  | A4
  | A5
  | A6
  | A7
  | S2
  | S3
  | S4
  | S5
  | S6
  | S7
  | S8
  | S9
  | S10
  | S11
  | T3
  | T4
  | T5
  | T6
deriving DecidableEq

/-- The discriminant of each Register variant (its value under the usize
cast), as assigned explicitly in src/register.rs. -/
def Register.index : Register → Nat
  | .Zero => 0
  | .RA => 1
  | .SP => 2
  | .GP => 3
  | .TP => 4
  | .T0 => 5
  | .T1 => 6
  | .T2 => 7
  | .S0 => 8
  | .S1 => 9
  | .A0 => 10
  | .A1 => 11
  | .A2 => 12
  | .A3 => 13
  | .A4 => 14
  | .A5 => 15
  | .A6 => 16
  | .A7 => 17
  | .S2 => 18
  | .S3 => 19
  | .S4 => 20
  | .S5 => 21
  | .S6 => 22
  | .S7 => 23
  | .S8 => 24
  | .S9 => 25
  | .S10 => 26
  | .S11 => 27
  | .T3 => 28
  | .T4 => 29
  | .T5 => 30
  | .T6 => 31

/-- Modelled from the spec: src/instruction/format.rs is absent from the
sources; the spec (section 3) gives the decoded U-type operand as a rd field
(a usize, here Nat) and a sign-extended 32-bit immediate (an i32, here Int). -/
structure TypeU where
  rd : Nat
  imm : Int

/-- Modelled from the spec: src/instruction/mod.rs is absent from the
sources; the spec (section 6) publishes the instruction size in bytes as 4. -/
def INSTRUCTION_SIZE : Nat := 4

/-- Modelled from the spec: src/engine.rs is absent from the sources; the
spec (section 4.6) gives the engine state as registers, a 32-bit program
counter (a Nat kept below 2 to the 32nd) and the memory view (a type
parameter, as the Rust engine is generic over the Memory trait). The config
is omitted: no verified operation consults it. -/
structure Engine (M : Type) where
  registers : Registers
  program_counter : Nat
  memory : M

/-- Two's-complement wrapping addition of an i32 to a u32
(u32 wrapping_add_signed), on the unsigned representative. -/
def wrapping_add_signed (x : Nat) (y : Int) : Nat :=
  (((x : Int) + y) % (2 ^ 32 : Int)).toNat

/-- Reinterpretation of a u32 value as an i32 (the Rust cast to i32). -/
def toInt32 (n : Nat) : Int :=
  if n % 2 ^ 32 < 2 ^ 31 then ((n % 2 ^ 32 : Nat) : Int)
  else ((n % 2 ^ 32 : Nat) : Int) - 2 ^ 32

/-- The AUIPC instruction (src/instruction/auipc.rs): a decoded U-type. -/
structure Auipc where
  ty : TypeU

/-- Auipc::execute (src/instruction/auipc.rs): when rd is not 0, obtain the
slot through get_mut (propagating its bounds-check error) and store the
program counter wrapping-plus the immediate, cast to i32; then advance the
program counter by INSTRUCTION_SIZE with wrapping, and continue (Ok true). -/
def Auipc.execute {M : Type} (self : Auipc) (engine : Engine M) :
    Except EmbiveError (Bool × Engine M) := do
  let engine ←
    if self.ty.rd ≠ 0 then do
      let _ ← engine.registers.get_mut self.ty.rd
      pure { engine with
        registers := engine.registers.write self.ty.rd
          (toInt32 (wrapping_add_signed engine.program_counter self.ty.imm)) }
    else
      pure engine
  pure (true, { engine with
    program_counter := (engine.program_counter + INSTRUCTION_SIZE) % 2 ^ 32 })

/-- One engine step that executes an AUIPC instruction; on a trap the engine
keeps its prior state (the error occurs before any mutation). -/
def Auipc.step {M : Type} (ty : TypeU) (e : Engine M) : Engine M :=
  match Auipc.execute ⟨ty⟩ e with
  | .ok (_, e2) => e2
  | .error _ => e

/-- Execution of a sequence of AUIPC instructions, one step per operand. -/
def Auipc.steps {M : Type} (l : List TypeU) (e : Engine M) : Engine M :=
  l.foldl (fun acc ty => Auipc.step ty acc) e

/-- Modelled from the spec: src/engine.rs (the ecall handler) is absent from
the sources. After the host syscall returns, the engine writes a status into
A0 (index 10) and the payload into A1 (index 11): the crate doc example in
src/lib.rs fixes the success case to A0 = 0 and A1 = the returned value, and
the spec (section 4.4) fixes the failure case to a non-zero marker in A0
(modelled as 1) and the error value in A1. -/
def ecall_write_result (regs : Registers) (result : Except Int Int) : Registers :=
  match result with
  | .ok value => (regs.write (Register.A0.index) 0).write (Register.A1.index) value
  | .error value => (regs.write (Register.A0.index) 1).write (Register.A1.index) value

/-! ## Basic lemmas about the register file -/

theorem Registers.get_of_lt (r : Registers) {i : Nat} (h : i < REGISTER_COUNT) :
    r.get i = .ok (r.inner ⟨i, h⟩) := by
  unfold Registers.get
  rw [dif_neg (Nat.not_le.mpr h)]

theorem Registers.get_of_le (r : Registers) {i : Nat} (h : REGISTER_COUNT ≤ i) :
    r.get i = .error .InvalidRegister := by
  unfold Registers.get
  rw [dif_pos h]

theorem Registers.get_mut_eq_get (r : Registers) (i : Nat) :
    r.get_mut i = r.get i := rfl

theorem Registers.get_write_self (r : Registers) {i : Nat} (h : i < REGISTER_COUNT)
    (v : Int) : (r.write i v).get i = .ok v := by
  rw [Registers.get_of_lt _ h]
  simp [Registers.write]

theorem Registers.get_write_ne (r : Registers) {i j : Nat} (hne : j ≠ i) (v : Int) :
    (r.write i v).get j = r.get j := by
  unfold Registers.get
  by_cases h : REGISTER_COUNT ≤ j
  · rw [dif_pos h, dif_pos h]
  · rw [dif_neg h, dif_neg h]
    simp [Registers.write, hne]

theorem Registers.get_new {i : Nat} (h : i < REGISTER_COUNT) :
    Registers.new.get i = .ok 0 := by
  rw [Registers.get_of_lt _ h]
  rfl

/-! ## Unfolding lemmas for Auipc.execute -/

theorem Auipc.execute_rd_zero {M : Type} (ty : TypeU) (e : Engine M)
    (h : ty.rd = 0) :
    Auipc.execute ⟨ty⟩ e =
      .ok (true, { e with
        program_counter := (e.program_counter + INSTRUCTION_SIZE) % 2 ^ 32 }) := by
  unfold Auipc.execute
  rw [if_neg (by simp [h])]
  rfl

theorem Auipc.execute_rd_lt {M : Type} (ty : TypeU) (e : Engine M)
    (h0 : ty.rd ≠ 0) (h32 : ty.rd < REGISTER_COUNT) :
    Auipc.execute ⟨ty⟩ e =
      .ok (true, { e with
        registers := e.registers.write ty.rd
          (toInt32 (wrapping_add_signed e.program_counter ty.imm)),
        program_counter := (e.program_counter + INSTRUCTION_SIZE) % 2 ^ 32 }) := by
  unfold Auipc.execute
  rw [if_pos h0, Registers.get_mut_eq_get, Registers.get_of_lt _ h32]
  rfl

theorem Auipc.execute_rd_ge {M : Type} (ty : TypeU) (e : Engine M)
    (h0 : ty.rd ≠ 0) (h32 : REGISTER_COUNT ≤ ty.rd) :
    Auipc.execute ⟨ty⟩ e = .error .InvalidRegister := by
  unfold Auipc.execute
  rw [if_pos h0, Registers.get_mut_eq_get, Registers.get_of_le _ h32]
  rfl

/-! ## Arithmetic characterisation of the wrapped PC plus immediate -/

theorem toInt32_wrapping_add_signed (pc : Nat) (imm : Int) :
    toInt32 (wrapping_add_signed pc imm) =
      (((pc : Int) + imm + 2 ^ 31) % 2 ^ 32) - 2 ^ 31 := by
  unfold toInt32 wrapping_add_signed
  have h1 : (0 : Int) ≤ ((pc : Int) + imm) % 2 ^ 32 :=
    Int.emod_nonneg _ (by norm_num)
  have h2 : ((pc : Int) + imm) % 2 ^ 32 < 2 ^ 32 :=
    Int.emod_lt_of_pos _ (by norm_num)
  have h3 : ((pc : Int) + imm + 2 ^ 31) % 2 ^ 32 =
      (((pc : Int) + imm) % 2 ^ 32 + 2 ^ 31 % 2 ^ 32) % 2 ^ 32 := Int.add_emod _ _ _
  rw [h3]
  split
  · omega
  · omega

/-! ## Step lemmas -/

theorem Auipc.step_get_zero {M : Type} (ty : TypeU) (e : Engine M) :
    (Auipc.step ty e).registers.get 0 = e.registers.get 0 := by
  unfold Auipc.step
  by_cases h0 : ty.rd = 0
  · rw [Auipc.execute_rd_zero ty e h0]
  · by_cases h32 : ty.rd < REGISTER_COUNT
    · rw [Auipc.execute_rd_lt ty e h0 h32]
      exact Registers.get_write_ne _ (fun hh => h0 hh.symm) _
    · rw [Auipc.execute_rd_ge ty e h0 (Nat.le_of_not_lt h32)]

theorem Auipc.steps_get_zero {M : Type} (l : List TypeU) (e : Engine M) :
    (Auipc.steps l e).registers.get 0 = e.registers.get 0 := by
  induction l generalizing e with
  | nil => rfl
  | cons ty rest ih =>
      rw [show Auipc.steps (ty :: rest) e = Auipc.steps rest (Auipc.step ty e) from rfl]
      rw [ih (Auipc.step ty e), Auipc.step_get_zero]

/-! ## Claim theorems -/

/-- C1 (counterexample): on a host syscall returning success 30, the engine
writes 0 into A0 (index 10) and 30 into A1 (index 11) — not, as claimed, the
success value into A0 and 0 into A1. -/
theorem ecall_success_layout_counterexample :
    (ecall_write_result Registers.new (.ok 30)).get 10 = .ok 0 ∧
    (ecall_write_result Registers.new (.ok 30)).get 11 = .ok 30 ∧
    ¬((ecall_write_result Registers.new (.ok 30)).get 10 = .ok 30 ∧
      (ecall_write_result Registers.new (.ok 30)).get 11 = .ok 0) := by
  refine ⟨rfl, rfl, fun h => ?_⟩
  have h1 : (Except.ok 0 : Except EmbiveError Int) = .ok 30 := h.1
  injection h1 with h2
  omega

/-- C1 (amended): on success the engine writes 0 into A0 and the success
return value into A1; on error it writes the non-zero marker 1 into A0 and
the error value into A1. -/
theorem ecall_result_layout (regs : Registers) (v w : Int) :
    ((ecall_write_result regs (.ok v)).get 10 = .ok 0 ∧
     (ecall_write_result regs (.ok v)).get 11 = .ok v) ∧
    ((ecall_write_result regs (.error w)).get 10 = .ok 1 ∧
     (ecall_write_result regs (.error w)).get 11 = .ok w) ∧
    (1 : Int) ≠ 0 := by
  refine ⟨⟨?_, ?_⟩, ⟨?_, ?_⟩, by omega⟩
  · show ((regs.write 10 0).write 11 v).get 10 = .ok 0
    rw [Registers.get_write_ne _ (by decide) _, Registers.get_write_self _ (by decide) _]
  · show ((regs.write 10 0).write 11 v).get 11 = .ok v
    rw [Registers.get_write_self _ (by decide) _]
  · show ((regs.write 10 1).write 11 w).get 10 = .ok 1
    rw [Registers.get_write_ne _ (by decide) _, Registers.get_write_self _ (by decide) _]
  · show ((regs.write 10 1).write 11 w).get 11 = .ok w
    rw [Registers.get_write_self _ (by decide) _]

/-- C2: register 0 always reads 0: a freshly constructed register file has
every slot equal to 0, and executing any sequence of AUIPC instructions (for
any rd and imm, a trapping step leaving the state unchanged) keeps
registers.get 0 equal to Ok 0. -/
theorem register_zero_reads_zero :
    (∀ i : Nat, i < REGISTER_COUNT → Registers.new.get i = .ok 0) ∧
    (∀ (M : Type) (e : Engine M) (l : List TypeU),
      e.registers.get 0 = .ok 0 → (Auipc.steps l e).registers.get 0 = .ok 0) := by
  refine ⟨fun i h => Registers.get_new h, fun M e l h => ?_⟩
  rw [Auipc.steps_get_zero, h]

/-- C2 (witness): the theorem at slot 5 of a fresh file and at a concrete
two-step AUIPC run from a fresh engine. -/
theorem register_zero_reads_zero_witness :
    Registers.new.get 5 = .ok 0 ∧
    (Auipc.steps [⟨1, 7⟩, ⟨0, 3⟩]
      (⟨Registers.new, 0, ()⟩ : Engine Unit)).registers.get 0 = .ok 0 :=
  ⟨register_zero_reads_zero.1 5 (by decide),
   register_zero_reads_zero.2 Unit ⟨Registers.new, 0, ()⟩ [⟨1, 7⟩, ⟨0, 3⟩] (by rfl)⟩

/-- C3: for every engine state and U-type operand with rd not 0 and rd < 32,
AUIPC writes PC + imm (two's-complement wrapping addition on the 32-bit PC,
reinterpreted as a signed 32-bit integer) into rd and sets the PC to PC + 4
wrapping; in particular, with PC = 1 and rd = 1, imm = 0x1000 yields
rd = 0x1001 and PC = 5, and imm = -0x1000 yields rd = -0xFFF and PC = 5. -/
theorem auipc_writes_pc_plus_imm {M : Type} (e : Engine M) (ty : TypeU)
    (h0 : ty.rd ≠ 0) (h32 : ty.rd < REGISTER_COUNT) :
    ((Auipc.execute ⟨ty⟩ e).map
        (fun p => (p.1, p.2.registers.get ty.rd, p.2.program_counter)) =
      .ok (true,
        .ok ((((e.program_counter : Int) + ty.imm + 2 ^ 31) % 2 ^ 32) - 2 ^ 31),
        (e.program_counter + 4) % 2 ^ 32)) ∧
    ((Auipc.execute (⟨⟨1, 0x1000⟩⟩ : Auipc) (⟨Registers.new, 1, ()⟩ : Engine Unit)).map
        (fun p => (p.1, p.2.registers.get 1, p.2.program_counter)) =
      .ok (true, .ok 0x1001, 5)) ∧
    ((Auipc.execute (⟨⟨1, -0x1000⟩⟩ : Auipc) (⟨Registers.new, 1, ()⟩ : Engine Unit)).map
        (fun p => (p.1, p.2.registers.get 1, p.2.program_counter)) =
      .ok (true, .ok (-0xFFF), 5)) := by
  refine ⟨?_, rfl, rfl⟩
  rw [Auipc.execute_rd_lt ty e h0 h32]
  show Except.ok (true, (e.registers.write ty.rd
      (toInt32 (wrapping_add_signed e.program_counter ty.imm))).get ty.rd,
      (e.program_counter + INSTRUCTION_SIZE) % 2 ^ 32) = _
  rw [Registers.get_write_self _ h32, toInt32_wrapping_add_signed]
  rfl

/-- C3 (witness): the theorem at rd = 2, imm = 0x1000, PC = 1. -/
theorem auipc_writes_pc_plus_imm_witness :
    (Auipc.execute (⟨⟨2, 0x1000⟩⟩ : Auipc) (⟨Registers.new, 1, ()⟩ : Engine Unit)).map
        (fun p => (p.1, p.2.registers.get 2, p.2.program_counter)) =
      .ok (true, .ok ((((1 : Int) + 0x1000 + 2 ^ 31) % 2 ^ 32) - 2 ^ 31),
        (1 + 4) % 2 ^ 32) :=
  (auipc_writes_pc_plus_imm (⟨Registers.new, 1, ()⟩ : Engine Unit) ⟨2, 0x1000⟩
    (by decide) (by decide)).1

/-- C4: no operation panics: for every index (indices at or beyond 32
included) get and get_mut return a value or an error, and Auipc.execute
returns an Ok or an error result for every engine state and operand. -/
theorem no_operation_panics :
    (∀ (r : Registers) (i : Nat),
      (∃ v, r.get i = .ok v) ∨ r.get i = .error .InvalidRegister) ∧
    (∀ (r : Registers) (i : Nat),
      (∃ v, r.get_mut i = .ok v) ∨ r.get_mut i = .error .InvalidRegister) ∧
    (∀ (M : Type) (e : Engine M) (ty : TypeU),
      (∃ res, Auipc.execute ⟨ty⟩ e = .ok res) ∨
      (∃ err, Auipc.execute ⟨ty⟩ e = .error err)) := by
  refine ⟨fun r i => ?_, fun r i => ?_, fun M e ty => ?_⟩
  · by_cases h : REGISTER_COUNT ≤ i
    · exact Or.inr (Registers.get_of_le r h)
    · exact Or.inl ⟨_, Registers.get_of_lt r (Nat.lt_of_not_le h)⟩
  · rw [Registers.get_mut_eq_get]
    by_cases h : REGISTER_COUNT ≤ i
    · exact Or.inr (Registers.get_of_le r h)
    · exact Or.inl ⟨_, Registers.get_of_lt r (Nat.lt_of_not_le h)⟩
  · by_cases h0 : ty.rd = 0
    · exact Or.inl ⟨_, Auipc.execute_rd_zero ty e h0⟩
    · by_cases h32 : ty.rd < REGISTER_COUNT
      · exact Or.inl ⟨_, Auipc.execute_rd_lt ty e h0 h32⟩
      · exact Or.inr ⟨_, Auipc.execute_rd_ge ty e h0 (Nat.le_of_not_lt h32)⟩

/-- C5: get and get_mut return InvalidRegister exactly when the index is at
least 32, and for every index below 32 they return the stored slot value. -/
theorem get_invalid_register_iff (r : Registers) (i : Nat) :
    (r.get i = .error .InvalidRegister ↔ REGISTER_COUNT ≤ i) ∧
    (r.get_mut i = .error .InvalidRegister ↔ REGISTER_COUNT ≤ i) ∧
    ∀ h : i < REGISTER_COUNT,
      r.get i = .ok (r.inner ⟨i, h⟩) ∧ r.get_mut i = .ok (r.inner ⟨i, h⟩) := by
  have key : r.get i = .error .InvalidRegister ↔ REGISTER_COUNT ≤ i := by
    constructor
    · intro h
      by_contra hlt
      rw [Registers.get_of_lt r (Nat.lt_of_not_le hlt)] at h
      exact Except.noConfusion h
    · exact Registers.get_of_le r
  refine ⟨key, ?_, fun h => ⟨Registers.get_of_lt r h, ?_⟩⟩
  · rw [Registers.get_mut_eq_get]
    exact key
  · rw [Registers.get_mut_eq_get]
    exact Registers.get_of_lt r h

/-- C5 (witness): the theorem at a fresh file, index 40 (error side) and
index 5 (success side). -/
theorem get_invalid_register_iff_witness :
    Registers.new.get 40 = .error .InvalidRegister ∧ Registers.new.get 5 = .ok 0 :=
  ⟨(get_invalid_register_iff Registers.new 40).1.mpr (by decide),
   by
     have h := ((get_invalid_register_iff Registers.new 5).2.2 (by decide)).1
     rw [h]
     rfl⟩

/-- C6: AUIPC with rd = 0 writes no register: every slot (slot 0 included)
keeps its value, the PC still advances by 4 wrapping, and the continue flag
is returned. -/
theorem auipc_rd_zero_writes_nothing {M : Type} (e : Engine M) (ty : TypeU)
    (h : ty.rd = 0) :
    ∃ e2 : Engine M, Auipc.execute ⟨ty⟩ e = .ok (true, e2) ∧
      e2.registers = e.registers ∧
      (∀ i : Nat, e2.registers.get i = e.registers.get i) ∧
      e2.program_counter = (e.program_counter + 4) % 2 ^ 32 ∧
      e2.memory = e.memory :=
  ⟨_, Auipc.execute_rd_zero ty e h, rfl, fun _ => rfl, rfl, rfl⟩

/-- C6 (witness): the theorem at rd = 0, imm = 99, PC = 8. -/
theorem auipc_rd_zero_writes_nothing_witness :
    ∃ e2 : Engine Unit,
      Auipc.execute ⟨⟨0, 99⟩⟩ (⟨Registers.new, 8, ()⟩ : Engine Unit) = .ok (true, e2) ∧
      e2.registers = Registers.new ∧
      (∀ i : Nat, e2.registers.get i = Registers.new.get i) ∧
      e2.program_counter = (8 + 4) % 2 ^ 32 ∧
      e2.memory = () :=
  auipc_rd_zero_writes_nothing (⟨Registers.new, 8, ()⟩ : Engine Unit) ⟨0, 99⟩ rfl

/-- C7: AUIPC with immediate 0 writes the current PC (reinterpreted as a
signed 32-bit integer) into rd, for every rd strictly between 0 and 32. -/
theorem auipc_imm_zero_writes_pc {M : Type} (e : Engine M) (rd : Nat)
    (h0 : 0 < rd) (h32 : rd < REGISTER_COUNT) (hpc : e.program_counter < 2 ^ 32) :
    (Auipc.execute (⟨⟨rd, 0⟩⟩ : Auipc) e).map (fun p => p.2.registers.get rd) =
      .ok (.ok (if e.program_counter < 2 ^ 31 then (e.program_counter : Int)
        else (e.program_counter : Int) - 2 ^ 32)) := by
  rw [Auipc.execute_rd_lt ⟨rd, 0⟩ e (Nat.pos_iff_ne_zero.mp h0) h32]
  show Except.ok ((e.registers.write rd
      (toInt32 (wrapping_add_signed e.program_counter (0 : Int)))).get rd) = _
  rw [Registers.get_write_self _ h32, toInt32_wrapping_add_signed]
  have harith : ((((e.program_counter : Int) + 0 + 2 ^ 31) % 2 ^ 32) - 2 ^ 31) =
      (if e.program_counter < 2 ^ 31 then (e.program_counter : Int)
        else (e.program_counter : Int) - 2 ^ 32) := by
    split
    · omega
    · omega
  rw [harith]

/-- C7 (witness): the theorem at rd = 1, PC = 1. -/
theorem auipc_imm_zero_writes_pc_witness :
    (Auipc.execute (⟨⟨1, 0⟩⟩ : Auipc) (⟨Registers.new, 1, ()⟩ : Engine Unit)).map
        (fun p => p.2.registers.get 1) =
      .ok (.ok (if (1 : Nat) < 2 ^ 31 then ((1 : Nat) : Int)
        else ((1 : Nat) : Int) - 2 ^ 32)) :=
  auipc_imm_zero_writes_pc (⟨Registers.new, 1, ()⟩ : Engine Unit) 1
    (by decide) (by decide) (by norm_num)

/-- C8: the public register enum maps the syscall names to the engine's
indices: A7 is 17 and A0 through A5 are 10 through 15. -/
theorem register_syscall_indices :
    Register.A7.index = 17 ∧ Register.A0.index = 10 ∧ Register.A1.index = 11 ∧
    Register.A2.index = 12 ∧ Register.A3.index = 13 ∧ Register.A4.index = 14 ∧
    Register.A5.index = 15 := by
  decide

/-- C9: reset sets every one of the 32 slots to 0: after reset every valid
index reads Ok 0, identically to a freshly constructed register file (the
reset file is equal to the fresh one). -/
theorem reset_zeroes_registers (r : Registers) :
    r.reset = Registers.new ∧
    ∀ i : Nat, i < REGISTER_COUNT →
      r.reset.get i = .ok 0 ∧ r.reset.get i = Registers.new.get i :=
  ⟨rfl, fun _ h => ⟨Registers.get_new h, rfl⟩⟩

/-- C9 (witness): the theorem at a dirtied register file, index 3. -/
theorem reset_zeroes_registers_witness :
    (Registers.write Registers.new 3 5).reset.get 3 = .ok 0 :=
  ((reset_zeroes_registers (Registers.write Registers.new 3 5)).2 3 (by decide)).1

/-- C10: for every engine state and U-type operand with rd < 32,
Auipc.execute returns Ok true and modifies only register rd and the program
counter: every other register and the memory are unchanged, and the PC
becomes PC + 4 wrapping. -/
theorem auipc_frame_effect {M : Type} (e : Engine M) (ty : TypeU)
    (h32 : ty.rd < REGISTER_COUNT) :
    ∃ e2 : Engine M, Auipc.execute ⟨ty⟩ e = .ok (true, e2) ∧
      (∀ i : Nat, i ≠ ty.rd → e2.registers.get i = e.registers.get i) ∧
      e2.memory = e.memory ∧
      e2.program_counter = (e.program_counter + 4) % 2 ^ 32 := by
  by_cases h0 : ty.rd = 0
  · exact ⟨_, Auipc.execute_rd_zero ty e h0, fun i _ => rfl, rfl, rfl⟩
  · exact ⟨_, Auipc.execute_rd_lt ty e h0 h32,
      fun i hi => Registers.get_write_ne _ hi _, rfl, rfl⟩

/-- C10 (witness): the theorem at rd = 3, imm = 64, PC = 0. -/
theorem auipc_frame_effect_witness :
    ∃ e2 : Engine Unit,
      Auipc.execute ⟨⟨3, 64⟩⟩ (⟨Registers.new, 0, ()⟩ : Engine Unit) = .ok (true, e2) ∧
      (∀ i : Nat, i ≠ 3 → e2.registers.get i = Registers.new.get i) ∧
      e2.memory = () ∧
      e2.program_counter = (0 + 4) % 2 ^ 32 :=
  auipc_frame_effect (⟨Registers.new, 0, ()⟩ : Engine Unit) ⟨3, 64⟩ (by decide)

end Embive
